import Mathlib

/-!
Verification of the symdiff symbolic-differentiation kernel.

The definitions below are a shallow embedding of src/symdiff.py:
the closed expression type, the rendering, the simplification engine
(children first, then one layer of rules at the current node) and the
differentiation engine (which simplifies children before applying the
rule of the current node).  Constant values are modelled by rationals,
matching the numeric values the source manipulates.
-/

namespace Symdiff

/-- The closed expression type of src/symdiff.py: Constant, Variable,
Add, Multiply, Power (classes at lines 51, 61, 71, 98, 132). -/
inductive Expression where
  | Constant (value : ℚ)
  | Variable (name : String)
  | Add (left right : Expression)
  | Multiply (left right : Expression)
  | Power (base exponent : Expression)
deriving DecidableEq

/-- Total stand-in for Python exponentiation on constant values, used
by the total engines: the exact rational power for an integer exponent
(negative exponents give the exact rational that Python approximates by
a float).  Python raises ZeroDivisionError for a zero base with a
negative exponent, and produces a float (or complex) result, outside
the rational model, for a non-integer exponent; this total function
collapses both of those paths to 0.  The paths are modelled faithfully
by constPowE and the partial engine simplifyE below, and claims whose
truth depends on them are settled against that partial engine. -/
def constPow (a b : ℚ) : ℚ :=
  if b.den = 1 then a ^ b.num else 0

/-- Python exponentiation on constant values in the partial model:
none for a zero base with a negative integer exponent, where Python
raises ZeroDivisionError; the exact rational power for every other
integer exponent; and none for a non-integer exponent, whose float or
complex result lies outside the rational model. -/
def constPowE (a b : ℚ) : Option ℚ :=
  if b.den = 1 then
    if a = 0 ∧ b.num < 0 then none
    else some (a ^ b.num)
  else none

/-- The rule layer of Add.simplify (lines 86-93), applied to the already
simplified children: left zero, right zero, fold two constants, else
rebuild the Add node. -/
def addRules (left right : Expression) : Expression :=
  if left = .Constant 0 then right
  else if right = .Constant 0 then left
  else
    match left, right with
    | .Constant a, .Constant b => .Constant (a + b)
    | _, _ => .Add left right

/-- The rule layer of Multiply.simplify (lines 116-127): either side
zero, left one, right one, fold two constants, else rebuild. -/
def mulRules (left right : Expression) : Expression :=
  if left = .Constant 0 then .Constant 0
  else if right = .Constant 0 then .Constant 0
  else if left = .Constant 1 then right
  else if right = .Constant 1 then left
  else
    match left, right with
    | .Constant a, .Constant b => .Constant (a * b)
    | _, _ => .Multiply left right

/-- The rule layer of Power.simplify (lines 150-157): exponent zero,
exponent one, fold two constants with Python exponentiation, else
rebuild. -/
def powRules (base exponent : Expression) : Expression :=
  if exponent = .Constant 0 then .Constant 1
  else if exponent = .Constant 1 then base
  else
    match base, exponent with
    | .Constant a, .Constant b => .Constant (constPow a b)
    | _, _ => .Power base exponent

/-- simplify: Constant and Variable inherit the identity simplify of the
Expression base class (lines 16-18); Add, Multiply and Power simplify
their children first and then apply one layer of rules. -/
def simplify : Expression → Expression
  | .Constant v => .Constant v
  | .Variable n => .Variable n
  | .Add l r => addRules (simplify l) (simplify r)
  | .Multiply l r => mulRules (simplify l) (simplify r)
  | .Power b e => powRules (simplify b) (simplify e)

/-- The rule layer of Power.simplify in the partial model: identical to
powRules except that the constant fold runs the raising Python
exponentiation, so the fold can abort the computation. -/
def powRulesE (base exponent : Expression) : Option Expression :=
  if exponent = .Constant 0 then some (.Constant 1)
  else if exponent = .Constant 1 then some base
  else
    match base, exponent with
    | .Constant a, .Constant b => (constPowE a b).map .Constant
    | _, _ => some (.Power base exponent)

/-- The partial simplification engine: the same children-first
recursion as simplify, with the one raising operation of the source,
the constant fold of a Power node (line 155), modelled by Option.  A
none result is a raised ZeroDivisionError or a value outside the
rational model.  Adding and multiplying rational constant values never
raises, so addRules and mulRules are reused unchanged. -/
def simplifyE : Expression → Option Expression
  | .Constant v => some (.Constant v)
  | .Variable n => some (.Variable n)
  | .Add l r => do
      let l2 ← simplifyE l
      let r2 ← simplifyE r
      some (addRules l2 r2)
  | .Multiply l r => do
      let l2 ← simplifyE l
      let r2 ← simplifyE r
      some (mulRules l2 r2)
  | .Power b e => do
      let b2 ← simplifyE b
      let e2 ← simplifyE e
      powRulesE b2 e2

/-- Rendering of a constant value, as Python str renders the ints and
the exact rationals the model uses. -/
def valText (q : ℚ) : String :=
  if q.den = 1 then q.num.repr else q.num.repr ++ "/" ++ q.den.repr

/-- The fully parenthesized rendering implemented by the per-class str
methods (lines 58-59, 68-69, 95-96, 129-130, 159-160). -/
def toText : Expression → String
  | .Constant v => valText v
  | .Variable n => n
  | .Add l r => "(" ++ toText l ++ " + " ++ toText r ++ ")"
  | .Multiply l r => "(" ++ toText l ++ " * " ++ toText r ++ ")"
  | .Power b e => "(" ++ toText b ++ "^" ++ toText e ++ ")"

/-- Node count, the termination measure for differentiate. -/
def size : Expression → Nat
  | .Constant _ => 1
  | .Variable _ => 1
  | .Add l r => size l + size r + 1
  | .Multiply l r => size l + size r + 1
  | .Power b e => size b + size e + 1

theorem size_pos (e : Expression) : 0 < size e := by
  cases e <;> simp [size]

theorem size_addRules_le (l r : Expression) :
    size (addRules l r) ≤ size l + size r + 1 := by
  unfold addRules
  repeat' split
  all_goals try simp only [size]
  all_goals omega

theorem size_mulRules_le (l r : Expression) :
    size (mulRules l r) ≤ size l + size r + 1 := by
  unfold mulRules
  repeat' split
  all_goals try simp only [size]
  all_goals omega

theorem size_powRules_le (b e : Expression) :
    size (powRules b e) ≤ size b + size e + 1 := by
  unfold powRules
  repeat' split
  all_goals try simp only [size]
  all_goals omega

/-- simplify never grows an expression, which lets differentiate recurse
on simplified children. -/
theorem size_simplify_le (e : Expression) : size (simplify e) ≤ size e := by
  induction e with
  | Constant v => simp [simplify, size]
  | Variable n => simp [simplify, size]
  | Add l r ihl ihr =>
      have h := size_addRules_le (simplify l) (simplify r)
      simp only [simplify, size]
      omega
  | Multiply l r ihl ihr =>
      have h := size_mulRules_le (simplify l) (simplify r)
      simp only [simplify, size]
      omega
  | Power b e ihb ihe =>
      have h := size_powRules_le (simplify b) (simplify e)
      simp only [simplify, size]
      omega

/-- differentiate (methods at lines 55-56, 65-66, 76-80, 103-110,
137-144): constants to 0, the matching variable to 1, other variables
to 0; Add, Multiply and Power first simplify their children and then
apply the sum, product and power rule.  The power rule emits only the
base-derivative term. -/
def differentiate : Expression → String → Expression
  | .Constant _, _ => .Constant 0
  | .Variable name, var => if name = var then .Constant 1 else .Constant 0
  | .Add l r, var =>
      .Add (differentiate (simplify l) var) (differentiate (simplify r) var)
  | .Multiply l r, var =>
      .Add (.Multiply (differentiate (simplify l) var) (simplify r))
           (.Multiply (simplify l) (differentiate (simplify r) var))
  | .Power b e, var =>
      .Multiply
        (.Multiply (simplify e)
          (.Power (simplify b) (.Add (simplify e) (.Constant (-1)))))
        (differentiate (simplify b) var)
termination_by e _ => size e
decreasing_by
  all_goals try simp only [size]
  · have := size_simplify_le l; omega
  · have := size_simplify_le r; omega
  · have := size_simplify_le l; omega
  · have := size_simplify_le r; omega
  · have := size_simplify_le b; omega

theorem constPowE_agrees {a b q : ℚ} (h : constPowE a b = some q) :
    q = constPow a b := by
  unfold constPowE constPow at *
  by_cases hden : b.den = 1
  · rw [if_pos hden] at h ⊢
    by_cases hz : a = 0 ∧ b.num < 0
    · rw [if_pos hz] at h
      simp at h
    · rw [if_neg hz] at h
      exact (Option.some_inj.mp h).symm
  · rw [if_neg hden] at h
    simp at h

theorem powRulesE_agrees {b e r : Expression} (h : powRulesE b e = some r) :
    r = powRules b e := by
  unfold powRulesE powRules at *
  by_cases he0 : e = .Constant 0
  · rw [if_pos he0] at h ⊢
    exact (Option.some_inj.mp h).symm
  · rw [if_neg he0] at h ⊢
    by_cases he1 : e = .Constant 1
    · rw [if_pos he1] at h ⊢
      exact (Option.some_inj.mp h).symm
    · rw [if_neg he1] at h ⊢
      cases b <;> cases e <;> try exact (Option.some_inj.mp h).symm
      rename_i a c
      dsimp only at h ⊢
      cases hc : constPowE a c with
      | none =>
          rw [hc] at h
          simp at h
      | some q =>
          rw [hc] at h
          have h2 : Expression.Constant q = r := by simpa using h
          rw [← h2, constPowE_agrees hc]

theorem simplifyE_agrees : ∀ {e r : Expression}, simplifyE e = some r →
    r = simplify e := by
  intro e
  induction e with
  | Constant v =>
      intro r h
      exact (Option.some_inj.mp h).symm
  | Variable n =>
      intro r h
      exact (Option.some_inj.mp h).symm
  | Add l r ihl ihr =>
      intro r0 h
      cases hl2 : simplifyE l with
      | none => simp [simplifyE, hl2] at h
      | some l2 =>
          cases hr2 : simplifyE r with
          | none => simp [simplifyE, hl2, hr2] at h
          | some r2 =>
              simp only [simplifyE, hl2, hr2] at h
              have h2 : addRules l2 r2 = r0 := Option.some_inj.mp h
              rw [← h2, ihl hl2, ihr hr2]
              rfl
  | Multiply l r ihl ihr =>
      intro r0 h
      cases hl2 : simplifyE l with
      | none => simp [simplifyE, hl2] at h
      | some l2 =>
          cases hr2 : simplifyE r with
          | none => simp [simplifyE, hl2, hr2] at h
          | some r2 =>
              simp only [simplifyE, hl2, hr2] at h
              have h2 : mulRules l2 r2 = r0 := Option.some_inj.mp h
              rw [← h2, ihl hl2, ihr hr2]
              rfl
  | Power b e ihb ihe =>
      intro r0 h
      cases hb2 : simplifyE b with
      | none => simp [simplifyE, hb2] at h
      | some b2 =>
          cases he2 : simplifyE e with
          | none => simp [simplifyE, hb2, he2] at h
          | some e2 =>
              simp only [simplifyE, hb2, he2] at h
              have h2 : powRulesE b2 e2 = some r0 := h
              rw [powRulesE_agrees h2, ihb hb2, ihe he2]
              rfl

theorem size_simplifyE_le {e r : Expression} (h : simplifyE e = some r) :
    size r ≤ size e := by
  rw [simplifyE_agrees h]
  exact size_simplify_le e

/-- The partial differentiation engine: the same recursion as
differentiate, except that the children are simplified by the partial
engine, so a ZeroDivisionError raised while simplifying a child aborts
the differentiation, exactly as in the source. -/
def differentiateE : Expression → String → Option Expression
  | .Constant _, _ => some (.Constant 0)
  | .Variable name, var =>
      some (if name = var then .Constant 1 else .Constant 0)
  | .Add l r, var =>
      match hl : simplifyE l with
      | none => none
      | some l2 =>
        match hr : simplifyE r with
        | none => none
        | some r2 => do
            let dl ← differentiateE l2 var
            let dr ← differentiateE r2 var
            some (.Add dl dr)
  | .Multiply l r, var =>
      match hl : simplifyE l with
      | none => none
      | some l2 =>
        match hr : simplifyE r with
        | none => none
        | some r2 => do
            let dl ← differentiateE l2 var
            let dr ← differentiateE r2 var
            some (.Add (.Multiply dl r2) (.Multiply l2 dr))
  | .Power b e, var =>
      match hb : simplifyE b with
      | none => none
      | some b2 =>
        match he : simplifyE e with
        | none => none
        | some e2 => do
            let db ← differentiateE b2 var
            some (.Multiply
              (.Multiply e2 (.Power b2 (.Add e2 (.Constant (-1))))) db)
termination_by e _ => size e
decreasing_by
  all_goals try simp only [size]
  · have := size_simplifyE_le hl; omega
  · have := size_simplifyE_le hr; omega
  · have := size_simplifyE_le hl; omega
  · have := size_simplifyE_le hr; omega
  · have := size_simplifyE_le hb; omega

/-- Whether the node is a Constant, as the isinstance checks of the
source test it. -/
def isConst : Expression → Bool
  | .Constant _ => true
  | _ => false

/-- Whether a Variable node with the given name occurs somewhere in the
expression. -/
def usesVar (v : String) : Expression → Bool
  | .Constant _ => false
  | .Variable n => n == v
  | .Add l r => usesVar v l || usesVar v r
  | .Multiply l r => usesVar v l || usesVar v r
  | .Power b e => usesVar v b || usesVar v e

/-- Reduced form: no Add node with a Constant 0 child, no Multiply node
with a Constant 0 or Constant 1 child, no Power node whose exponent is
Constant 0 or Constant 1, and no binary node both of whose children are
constants. -/
def reducedForm : Expression → Bool
  | .Constant _ => true
  | .Variable _ => true
  | .Add l r =>
      reducedForm l && reducedForm r
        && !(l == .Constant 0) && !(r == .Constant 0)
        && !(isConst l && isConst r)
  | .Multiply l r =>
      reducedForm l && reducedForm r
        && !(l == .Constant 0) && !(r == .Constant 0)
        && !(l == .Constant 1) && !(r == .Constant 1)
        && !(isConst l && isConst r)
  | .Power b e =>
      reducedForm b && reducedForm e
        && !(e == .Constant 0) && !(e == .Constant 1)
        && !(isConst b && isConst e)

/-- The polynomial of the demonstration entry point and of the power
rule example: 3 times x squared, plus 2 times x, plus 1. -/
def exF : Expression :=
  .Add
    (.Add (.Multiply (.Constant 3) (.Power (.Variable "x") (.Constant 2)))
          (.Multiply (.Constant 2) (.Variable "x")))
    (.Constant 1)

/-- A raw Python value handed to the construction layer: a numeric
literal, or a non numeric object, modelled by a string.  The source
stores whatever it is given in the Constant field without a check. -/
inductive PyVal where
  | num (q : ℚ)
  | txt (s : String)
deriving DecidableEq

/-- Construction-layer expression trees.  A Constant node holds the
Python value it was constructed with, numeric or not, since the
Constant initializer (lines 52-53) stores the value unchecked. -/
inductive CExpr where
  | Constant (value : PyVal)
  | Variable (name : String)
  | Add (left right : CExpr)
  | Multiply (left right : CExpr)
  | Power (base exponent : CExpr)
deriving DecidableEq

/-- An operand of a construction-layer operation: an Expression, or any
other Python value. -/
inductive Operand where
  | expr (e : CExpr)
  | raw (v : PyVal)
deriving DecidableEq

/-- to_expression (lines 162-166): an Expression is returned unchanged,
and every other value is wrapped in a Constant.  The source has no
raise and no type check beyond the isinstance dispatch. -/
def to_expression : Operand → CExpr
  | .expr e => e
  | .raw v => .Constant v

/-- The add operator overload (lines 20-22). -/
def opAdd (self : CExpr) (other : Operand) : CExpr :=
  .Add self (to_expression other)

/-- The reversed add overload (lines 24-26). -/
def opRAdd (other : Operand) (self : CExpr) : CExpr :=
  .Add (to_expression other) self

/-- The sub operator overload (lines 28-30). -/
def opSub (self : CExpr) (other : Operand) : CExpr :=
  .Add self (.Multiply (.Constant (.num (-1))) (to_expression other))

/-- The reversed sub overload (lines 32-34). -/
def opRSub (other : Operand) (self : CExpr) : CExpr :=
  .Add (to_expression other) (.Multiply (.Constant (.num (-1))) self)

/-- The mul operator overload (lines 36-38). -/
def opMul (self : CExpr) (other : Operand) : CExpr :=
  .Multiply self (to_expression other)

/-- The reversed mul overload (lines 40-42). -/
def opRMul (other : Operand) (self : CExpr) : CExpr :=
  .Multiply (to_expression other) self

/-- The pow operator overload (lines 44-46). -/
def opPow (self : CExpr) (other : Operand) : CExpr :=
  .Power self (to_expression other)

theorem isConst_iff {e : Expression} : isConst e = true ↔ ∃ a, e = .Constant a := by
  cases e <;> simp [isConst]

theorem addRules_zero_left (r : Expression) : addRules (.Constant 0) r = r := by
  simp [addRules]

theorem addRules_zero_right (l : Expression) : addRules l (.Constant 0) = l := by
  by_cases h : l = .Constant 0 <;> simp [addRules, h]

theorem addRules_const {a b : ℚ} (h1 : a ≠ 0) (h2 : b ≠ 0) :
    addRules (.Constant a) (.Constant b) = .Constant (a + b) := by
  simp [addRules, h1, h2]

theorem addRules_rebuild {l r : Expression} (h1 : l ≠ .Constant 0)
    (h2 : r ≠ .Constant 0) (h3 : ¬(isConst l = true ∧ isConst r = true)) :
    addRules l r = .Add l r := by
  unfold addRules
  rw [if_neg h1, if_neg h2]
  cases l <;> cases r <;> first
    | rfl
    | exact absurd ⟨rfl, rfl⟩ h3

theorem mulRules_zero_left (r : Expression) :
    mulRules (.Constant 0) r = .Constant 0 := by
  simp [mulRules]

theorem mulRules_zero_right (l : Expression) :
    mulRules l (.Constant 0) = .Constant 0 := by
  by_cases h : l = .Constant 0 <;> simp [mulRules, h]

theorem mulRules_one_left (r : Expression) : mulRules (.Constant 1) r = r := by
  by_cases h : r = .Constant 0 <;> simp [mulRules, h]

theorem mulRules_one_right (l : Expression) : mulRules l (.Constant 1) = l := by
  by_cases h0 : l = .Constant 0 <;> by_cases h1 : l = .Constant 1 <;>
    simp [mulRules, h0, h1]

theorem mulRules_const {a b : ℚ} (ha0 : a ≠ 0) (hb0 : b ≠ 0) (ha1 : a ≠ 1)
    (hb1 : b ≠ 1) :
    mulRules (.Constant a) (.Constant b) = .Constant (a * b) := by
  simp [mulRules, ha0, hb0, ha1, hb1]

theorem mulRules_rebuild {l r : Expression} (h1 : l ≠ .Constant 0)
    (h2 : r ≠ .Constant 0) (h3 : l ≠ .Constant 1) (h4 : r ≠ .Constant 1)
    (h5 : ¬(isConst l = true ∧ isConst r = true)) :
    mulRules l r = .Multiply l r := by
  unfold mulRules
  rw [if_neg h1, if_neg h2, if_neg h3, if_neg h4]
  cases l <;> cases r <;> first
    | rfl
    | exact absurd ⟨rfl, rfl⟩ h5

theorem powRules_zero (b : Expression) : powRules b (.Constant 0) = .Constant 1 := by
  simp [powRules]

theorem powRules_one (b : Expression) : powRules b (.Constant 1) = b := by
  simp [powRules]

theorem powRules_const {a c : ℚ} (hc0 : c ≠ 0) (hc1 : c ≠ 1) :
    powRules (.Constant a) (.Constant c) = .Constant (constPow a c) := by
  simp [powRules, hc0, hc1]

theorem powRules_rebuild {b e : Expression} (h1 : e ≠ .Constant 0)
    (h2 : e ≠ .Constant 1) (h3 : ¬(isConst b = true ∧ isConst e = true)) :
    powRules b e = .Power b e := by
  unfold powRules
  rw [if_neg h1, if_neg h2]
  cases b <;> cases e <;> first
    | rfl
    | exact absurd ⟨rfl, rfl⟩ h3

theorem addRules_cases (l r : Expression) :
    (l = .Constant 0 ∧ addRules l r = r) ∨
    (l ≠ .Constant 0 ∧ r = .Constant 0 ∧ addRules l r = l) ∨
    (∃ a b, l = .Constant a ∧ r = .Constant b ∧ a ≠ 0 ∧ b ≠ 0 ∧
      addRules l r = .Constant (a + b)) ∨
    (l ≠ .Constant 0 ∧ r ≠ .Constant 0 ∧
      ¬(isConst l = true ∧ isConst r = true) ∧ addRules l r = .Add l r) := by
  by_cases hl : l = .Constant 0
  · exact Or.inl ⟨hl, by rw [hl, addRules_zero_left]⟩
  by_cases hr : r = .Constant 0
  · exact Or.inr (Or.inl ⟨hl, hr, by rw [hr, addRules_zero_right]⟩)
  by_cases hc : isConst l = true ∧ isConst r = true
  · obtain ⟨a, ha⟩ := isConst_iff.mp hc.1
    obtain ⟨b, hb⟩ := isConst_iff.mp hc.2
    refine Or.inr (Or.inr (Or.inl ⟨a, b, ha, hb, ?_, ?_, ?_⟩))
    · intro h; exact hl (by rw [ha, h])
    · intro h; exact hr (by rw [hb, h])
    · rw [ha, hb]
      exact addRules_const (fun h => hl (by rw [ha, h])) (fun h => hr (by rw [hb, h]))
  · exact Or.inr (Or.inr (Or.inr ⟨hl, hr, hc, addRules_rebuild hl hr hc⟩))

theorem mulRules_cases (l r : Expression) :
    (l = .Constant 0 ∧ mulRules l r = .Constant 0) ∨
    (r = .Constant 0 ∧ mulRules l r = .Constant 0) ∨
    (l = .Constant 1 ∧ r ≠ .Constant 0 ∧ mulRules l r = r) ∨
    (r = .Constant 1 ∧ l ≠ .Constant 0 ∧ mulRules l r = l) ∨
    (∃ a b, l = .Constant a ∧ r = .Constant b ∧ a ≠ 0 ∧ b ≠ 0 ∧ a ≠ 1 ∧ b ≠ 1 ∧
      mulRules l r = .Constant (a * b)) ∨
    (l ≠ .Constant 0 ∧ r ≠ .Constant 0 ∧ l ≠ .Constant 1 ∧ r ≠ .Constant 1 ∧
      ¬(isConst l = true ∧ isConst r = true) ∧ mulRules l r = .Multiply l r) := by
  by_cases hl0 : l = .Constant 0
  · exact Or.inl ⟨hl0, by rw [hl0, mulRules_zero_left]⟩
  by_cases hr0 : r = .Constant 0
  · exact Or.inr (Or.inl ⟨hr0, by rw [hr0, mulRules_zero_right]⟩)
  by_cases hl1 : l = .Constant 1
  · exact Or.inr (Or.inr (Or.inl ⟨hl1, hr0, by rw [hl1, mulRules_one_left]⟩))
  by_cases hr1 : r = .Constant 1
  · exact Or.inr (Or.inr (Or.inr (Or.inl
      ⟨hr1, hl0, by rw [hr1, mulRules_one_right]⟩)))
  by_cases hc : isConst l = true ∧ isConst r = true
  · obtain ⟨a, ha⟩ := isConst_iff.mp hc.1
    obtain ⟨b, hb⟩ := isConst_iff.mp hc.2
    refine Or.inr (Or.inr (Or.inr (Or.inr (Or.inl
      ⟨a, b, ha, hb, ?_, ?_, ?_, ?_, ?_⟩))))
    · intro h; exact hl0 (by rw [ha, h])
    · intro h; exact hr0 (by rw [hb, h])
    · intro h; exact hl1 (by rw [ha, h])
    · intro h; exact hr1 (by rw [hb, h])
    · rw [ha, hb]
      exact mulRules_const (fun h => hl0 (by rw [ha, h]))
        (fun h => hr0 (by rw [hb, h])) (fun h => hl1 (by rw [ha, h]))
        (fun h => hr1 (by rw [hb, h]))
  · exact Or.inr (Or.inr (Or.inr (Or.inr (Or.inr
      ⟨hl0, hr0, hl1, hr1, hc, mulRules_rebuild hl0 hr0 hl1 hr1 hc⟩))))

theorem powRules_cases (b e : Expression) :
    (e = .Constant 0 ∧ powRules b e = .Constant 1) ∨
    (e = .Constant 1 ∧ powRules b e = b) ∨
    (∃ a c, b = .Constant a ∧ e = .Constant c ∧ c ≠ 0 ∧ c ≠ 1 ∧
      powRules b e = .Constant (constPow a c)) ∨
    (e ≠ .Constant 0 ∧ e ≠ .Constant 1 ∧
      ¬(isConst b = true ∧ isConst e = true) ∧ powRules b e = .Power b e) := by
  by_cases he0 : e = .Constant 0
  · exact Or.inl ⟨he0, by rw [he0, powRules_zero]⟩
  by_cases he1 : e = .Constant 1
  · exact Or.inr (Or.inl ⟨he1, by rw [he1, powRules_one]⟩)
  by_cases hc : isConst b = true ∧ isConst e = true
  · obtain ⟨a, ha⟩ := isConst_iff.mp hc.1
    obtain ⟨c, hce⟩ := isConst_iff.mp hc.2
    refine Or.inr (Or.inr (Or.inl ⟨a, c, ha, hce, ?_, ?_, ?_⟩))
    · intro h; exact he0 (by rw [hce, h])
    · intro h; exact he1 (by rw [hce, h])
    · rw [ha, hce]
      exact powRules_const (fun h => he0 (by rw [hce, h]))
        (fun h => he1 (by rw [hce, h]))
  · exact Or.inr (Or.inr (Or.inr ⟨he0, he1, hc, powRules_rebuild he0 he1 hc⟩))

theorem reducedForm_Add_iff {l r : Expression} :
    reducedForm (.Add l r) = true ↔
      reducedForm l = true ∧ reducedForm r = true ∧ l ≠ .Constant 0 ∧
      r ≠ .Constant 0 ∧ ¬(isConst l = true ∧ isConst r = true) := by
  cases hA : isConst l <;> cases hB : isConst r <;>
    simp [reducedForm, Bool.and_eq_true, hA, hB, beq_eq_false_iff_ne,
      Bool.not_eq_true, and_assoc]

theorem reducedForm_Multiply_iff {l r : Expression} :
    reducedForm (.Multiply l r) = true ↔
      reducedForm l = true ∧ reducedForm r = true ∧ l ≠ .Constant 0 ∧
      r ≠ .Constant 0 ∧ l ≠ .Constant 1 ∧ r ≠ .Constant 1 ∧
      ¬(isConst l = true ∧ isConst r = true) := by
  cases hA : isConst l <;> cases hB : isConst r <;>
    simp [reducedForm, Bool.and_eq_true, hA, hB, beq_eq_false_iff_ne,
      Bool.not_eq_true, and_assoc]

theorem reducedForm_Power_iff {b e : Expression} :
    reducedForm (.Power b e) = true ↔
      reducedForm b = true ∧ reducedForm e = true ∧ e ≠ .Constant 0 ∧
      e ≠ .Constant 1 ∧ ¬(isConst b = true ∧ isConst e = true) := by
  cases hA : isConst b <;> cases hB : isConst e <;>
    simp [reducedForm, Bool.and_eq_true, hA, hB, beq_eq_false_iff_ne,
      Bool.not_eq_true, and_assoc]

theorem reduced_addRules {l r : Expression} (hl : reducedForm l = true)
    (hr : reducedForm r = true) : reducedForm (addRules l r) = true := by
  rcases addRules_cases l r with ⟨_, h⟩ | ⟨_, _, h⟩ | ⟨a, b, _, _, _, _, h⟩ |
    ⟨h1, h2, h3, h⟩
  · rw [h]; exact hr
  · rw [h]; exact hl
  · rw [h]; rfl
  · rw [h]; exact reducedForm_Add_iff.mpr ⟨hl, hr, h1, h2, h3⟩

theorem reduced_mulRules {l r : Expression} (hl : reducedForm l = true)
    (hr : reducedForm r = true) : reducedForm (mulRules l r) = true := by
  rcases mulRules_cases l r with ⟨_, h⟩ | ⟨_, h⟩ | ⟨_, _, h⟩ | ⟨_, _, h⟩ |
    ⟨a, b, _, _, _, _, _, _, h⟩ | ⟨h1, h2, h3, h4, h5, h⟩
  · rw [h]; rfl
  · rw [h]; rfl
  · rw [h]; exact hr
  · rw [h]; exact hl
  · rw [h]; rfl
  · rw [h]; exact reducedForm_Multiply_iff.mpr ⟨hl, hr, h1, h2, h3, h4, h5⟩

theorem reduced_powRules {b e : Expression} (hb : reducedForm b = true)
    (he : reducedForm e = true) : reducedForm (powRules b e) = true := by
  rcases powRules_cases b e with ⟨_, h⟩ | ⟨_, h⟩ | ⟨a, c, _, _, _, _, h⟩ |
    ⟨h1, h2, h3, h⟩
  · rw [h]; rfl
  · rw [h]; exact hb
  · rw [h]; rfl
  · rw [h]; exact reducedForm_Power_iff.mpr ⟨hb, he, h1, h2, h3⟩

/-- The output of simplify is always in reduced form. -/
theorem reduced_simplify (e : Expression) : reducedForm (simplify e) = true := by
  induction e with
  | Constant v => rfl
  | Variable n => rfl
  | Add l r ihl ihr => exact reduced_addRules ihl ihr
  | Multiply l r ihl ihr => exact reduced_mulRules ihl ihr
  | Power b e ihb ihe => exact reduced_powRules ihb ihe

/-- simplify is the identity on expressions already in reduced form. -/
theorem simplify_of_reduced : ∀ {e : Expression}, reducedForm e = true →
    simplify e = e := by
  intro e h
  induction e with
  | Constant v => rfl
  | Variable n => rfl
  | Add l r ihl ihr =>
      obtain ⟨hl, hr, h1, h2, h3⟩ := reducedForm_Add_iff.mp h
      show addRules (simplify l) (simplify r) = .Add l r
      rw [ihl hl, ihr hr]
      exact addRules_rebuild h1 h2 h3
  | Multiply l r ihl ihr =>
      obtain ⟨hl, hr, h1, h2, h3, h4, h5⟩ := reducedForm_Multiply_iff.mp h
      show mulRules (simplify l) (simplify r) = .Multiply l r
      rw [ihl hl, ihr hr]
      exact mulRules_rebuild h1 h2 h3 h4 h5
  | Power b e ihb ihe =>
      obtain ⟨hb, he, h1, h2, h3⟩ := reducedForm_Power_iff.mp h
      show powRules (simplify b) (simplify e) = .Power b e
      rw [ihb hb, ihe he]
      exact powRules_rebuild h1 h2 h3

/-- simplify computes a fixed point of itself in one pass over a tree
whose rules have already been applied. -/
theorem simplify_idem (e : Expression) : simplify (simplify e) = simplify e :=
  simplify_of_reduced (reduced_simplify e)

theorem diff_Constant (v : ℚ) (var : String) :
    differentiate (.Constant v) var = .Constant 0 := by
  simp only [differentiate]

theorem diff_Variable (n : String) (var : String) :
    differentiate (.Variable n) var =
      if n = var then .Constant 1 else .Constant 0 := by
  simp only [differentiate]

theorem diff_Add (l r : Expression) (var : String) :
    differentiate (.Add l r) var =
      .Add (differentiate (simplify l) var) (differentiate (simplify r) var) := by
  simp only [differentiate]

theorem diff_Multiply (l r : Expression) (var : String) :
    differentiate (.Multiply l r) var =
      .Add (.Multiply (differentiate (simplify l) var) (simplify r))
           (.Multiply (simplify l) (differentiate (simplify r) var)) := by
  simp only [differentiate]

theorem diff_Power (b e : Expression) (var : String) :
    differentiate (.Power b e) var =
      .Multiply
        (.Multiply (simplify e)
          (.Power (simplify b) (.Add (simplify e) (.Constant (-1)))))
        (differentiate (simplify b) var) := by
  simp only [differentiate]

theorem simplify_Constant (v : ℚ) : simplify (.Constant v) = .Constant v := rfl

theorem simplify_Variable (n : String) : simplify (.Variable n) = .Variable n := rfl

theorem simplify_Add (l r : Expression) :
    simplify (.Add l r) = addRules (simplify l) (simplify r) := rfl

theorem simplify_Multiply (l r : Expression) :
    simplify (.Multiply l r) = mulRules (simplify l) (simplify r) := rfl

theorem differentiateE_agrees_aux {v : String} :
    ∀ (n : Nat) (e : Expression), size e ≤ n → ∀ {d : Expression},
      differentiateE e v = some d → d = differentiate e v := by
  intro n
  induction n with
  | zero =>
      intro e hs
      have := size_pos e
      omega
  | succ n ih =>
      intro e hs d h
      cases e with
      | Constant a =>
          simp only [differentiateE] at h
          rw [diff_Constant]
          exact (Option.some_inj.mp h).symm
      | Variable m =>
          simp only [differentiateE] at h
          rw [diff_Variable]
          exact (Option.some_inj.mp h).symm
      | Add l r =>
          simp only [size] at hs
          simp only [differentiateE] at h
          split at h
          · exact Option.noConfusion h
          · rename_i l2 hsl
            split at h
            · exact Option.noConfusion h
            · rename_i r2 hsr
              cases hdl : differentiateE l2 v with
                  | none => rw [hdl] at h; exact Option.noConfusion h
                  | some dl =>
                      rw [hdl] at h
                      cases hdr : differentiateE r2 v with
                      | none => rw [hdr] at h; exact Option.noConfusion h
                      | some dr =>
                          rw [hdr] at h
                          have h2 : Expression.Add dl dr = d :=
                            Option.some_inj.mp h
                          have hl3 := simplifyE_agrees hsl
                          have hr3 := simplifyE_agrees hsr
                          have hdl2 : dl = differentiate l2 v := by
                            refine ih l2 ?_ hdl
                            have := size_simplifyE_le hsl
                            omega
                          have hdr2 : dr = differentiate r2 v := by
                            refine ih r2 ?_ hdr
                            have := size_simplifyE_le hsr
                            omega
                          rw [diff_Add, ← h2, hdl2, hdr2, hl3, hr3]
      | Multiply l r =>
          simp only [size] at hs
          simp only [differentiateE] at h
          split at h
          · exact Option.noConfusion h
          · rename_i l2 hsl
            split at h
            · exact Option.noConfusion h
            · rename_i r2 hsr
              cases hdl : differentiateE l2 v with
                  | none => rw [hdl] at h; exact Option.noConfusion h
                  | some dl =>
                      rw [hdl] at h
                      cases hdr : differentiateE r2 v with
                      | none => rw [hdr] at h; exact Option.noConfusion h
                      | some dr =>
                          rw [hdr] at h
                          have h2 : Expression.Add (.Multiply dl r2)
                              (.Multiply l2 dr) = d := Option.some_inj.mp h
                          have hl3 := simplifyE_agrees hsl
                          have hr3 := simplifyE_agrees hsr
                          have hdl2 : dl = differentiate l2 v := by
                            refine ih l2 ?_ hdl
                            have := size_simplifyE_le hsl
                            omega
                          have hdr2 : dr = differentiate r2 v := by
                            refine ih r2 ?_ hdr
                            have := size_simplifyE_le hsr
                            omega
                          rw [diff_Multiply, ← h2, hdl2, hdr2, hl3, hr3]
      | Power b e =>
          simp only [size] at hs
          simp only [differentiateE] at h
          split at h
          · exact Option.noConfusion h
          · rename_i b2 hsb
            split at h
            · exact Option.noConfusion h
            · rename_i e2 hse
              cases hdb : differentiateE b2 v with
                  | none => rw [hdb] at h; exact Option.noConfusion h
                  | some db =>
                      rw [hdb] at h
                      have h2 : Expression.Multiply
                          (.Multiply e2 (.Power b2 (.Add e2 (.Constant (-1)))))
                          db = d := Option.some_inj.mp h
                      have hb3 := simplifyE_agrees hsb
                      have he3 := simplifyE_agrees hse
                      have hdb2 : db = differentiate b2 v := by
                        refine ih b2 ?_ hdb
                        have := size_simplifyE_le hsb
                        omega
                      rw [diff_Power, ← h2, hdb2, hb3, he3]

/-- When the partial differentiation engine completes without raising,
it returns exactly the tree of the total engine. -/
theorem differentiateE_agrees {e : Expression} {v : String} {d : Expression}
    (h : differentiateE e v = some d) : d = differentiate e v :=
  differentiateE_agrees_aux (size e) e le_rfl h

theorem usesVar_addRules {v : String} {l r : Expression}
    (hl : usesVar v l = false) (hr : usesVar v r = false) :
    usesVar v (addRules l r) = false := by
  rcases addRules_cases l r with ⟨_, h⟩ | ⟨_, _, h⟩ | ⟨a, b, _, _, _, _, h⟩ |
    ⟨_, _, _, h⟩
  · rw [h]; exact hr
  · rw [h]; exact hl
  · rw [h]; rfl
  · rw [h]; simp [usesVar, hl, hr]

theorem usesVar_mulRules {v : String} {l r : Expression}
    (hl : usesVar v l = false) (hr : usesVar v r = false) :
    usesVar v (mulRules l r) = false := by
  rcases mulRules_cases l r with ⟨_, h⟩ | ⟨_, h⟩ | ⟨_, _, h⟩ | ⟨_, _, h⟩ |
    ⟨a, b, _, _, _, _, _, _, h⟩ | ⟨_, _, _, _, _, h⟩
  · rw [h]; rfl
  · rw [h]; rfl
  · rw [h]; exact hr
  · rw [h]; exact hl
  · rw [h]; rfl
  · rw [h]; simp [usesVar, hl, hr]

theorem usesVar_powRules {v : String} {b e : Expression}
    (hb : usesVar v b = false) (he : usesVar v e = false) :
    usesVar v (powRules b e) = false := by
  rcases powRules_cases b e with ⟨_, h⟩ | ⟨_, h⟩ | ⟨a, c, _, _, _, _, h⟩ |
    ⟨_, _, _, h⟩
  · rw [h]; rfl
  · rw [h]; exact hb
  · rw [h]; rfl
  · rw [h]; simp [usesVar, hb, he]

theorem usesVar_simplify {v : String} :
    ∀ {e : Expression}, usesVar v e = false → usesVar v (simplify e) = false := by
  intro e h
  induction e with
  | Constant a => rfl
  | Variable n => exact h
  | Add l r ihl ihr =>
      simp only [usesVar, Bool.or_eq_false_iff] at h
      exact usesVar_addRules (ihl h.1) (ihr h.2)
  | Multiply l r ihl ihr =>
      simp only [usesVar, Bool.or_eq_false_iff] at h
      exact usesVar_mulRules (ihl h.1) (ihr h.2)
  | Power b e ihb ihe =>
      simp only [usesVar, Bool.or_eq_false_iff] at h
      exact usesVar_powRules (ihb h.1) (ihe h.2)

theorem diff_varFree_aux {v : String} :
    ∀ (n : Nat) (e : Expression), size e ≤ n → usesVar v e = false →
      simplify (differentiate e v) = .Constant 0 := by
  intro n
  induction n with
  | zero =>
      intro e hs _
      have := size_pos e
      omega
  | succ n ih =>
      intro e hs h
      cases e with
      | Constant a => rw [diff_Constant, simplify_Constant]
      | Variable m =>
          have hm : m ≠ v := by
            simp only [usesVar, beq_eq_false_iff_ne, ne_eq] at h
            exact h
          rw [diff_Variable, if_neg hm, simplify_Constant]
      | Add l r =>
          simp only [usesVar, Bool.or_eq_false_iff] at h
          simp only [size] at hs
          have hdl := ih (simplify l)
            (le_trans (size_simplify_le l) (by omega)) (usesVar_simplify h.1)
          have hdr := ih (simplify r)
            (le_trans (size_simplify_le r) (by omega)) (usesVar_simplify h.2)
          rw [diff_Add, simplify_Add, hdl, hdr, addRules_zero_left]
      | Multiply l r =>
          simp only [usesVar, Bool.or_eq_false_iff] at h
          simp only [size] at hs
          have hdl := ih (simplify l)
            (le_trans (size_simplify_le l) (by omega)) (usesVar_simplify h.1)
          have hdr := ih (simplify r)
            (le_trans (size_simplify_le r) (by omega)) (usesVar_simplify h.2)
          rw [diff_Multiply, simplify_Add, simplify_Multiply, simplify_Multiply,
            hdl, hdr, mulRules_zero_left, mulRules_zero_right,
            addRules_zero_left]
      | Power b e =>
          simp only [usesVar, Bool.or_eq_false_iff] at h
          simp only [size] at hs
          have hdb := ih (simplify b)
            (le_trans (size_simplify_le b) (by omega)) (usesVar_simplify h.1)
          rw [diff_Power, simplify_Multiply, hdb, mulRules_zero_right]

/-- The simplified derivative of the demonstration polynomial, computed
step by step through the engines. -/
theorem exF_deriv : simplify (differentiate exF "x") =
    .Add (.Multiply (.Constant 3) (.Multiply (.Constant 2) (.Variable "x")))
         (.Constant 2) := by
  simp [exF, differentiate, simplify, addRules, mulRules, powRules, isConst,
    show ((2 : ℚ) + -1 = 0) = False by norm_num,
    show ((2 : ℚ) + -1 = 1) = True by norm_num]

/-- C1 counterexample: for f = 3 x squared + 2 x + 1, the simplified
derivative is neither structurally equal to Add(Multiply(Constant 6,
Variable x), Constant 2) nor rendered as that expression: simplify does
not reassociate the nested product 3 times (2 times x). -/
theorem demo_derivative_not_folded :
    simplify (differentiate exF "x") ≠
      .Add (.Multiply (.Constant 6) (.Variable "x")) (.Constant 2) ∧
    toText (simplify (differentiate exF "x")) ≠ "((6 * x) + 2)" := by
  constructor
  · rw [exF_deriv]
    simp
  · rw [exF_deriv]
    have h : toText (.Add (.Multiply (.Constant 3)
        (.Multiply (.Constant 2) (.Variable "x"))) (.Constant 2)) =
        "((3 * (2 * x)) + 2)" := rfl
    rw [h]
    decide

/-- C1 amended: for f = 3 x squared + 2 x + 1, simplify of
differentiate of f with respect to x equals Add(Multiply(Constant 3,
Multiply(Constant 2, Variable x)), Constant 2), rendered as
"((3 * (2 * x)) + 2)" - semantically 6 x + 2, but the product is not
folded to Multiply(Constant 6, Variable x). -/
theorem demo_derivative_value :
    simplify (differentiate exF "x") =
      .Add (.Multiply (.Constant 3) (.Multiply (.Constant 2) (.Variable "x")))
           (.Constant 2) ∧
    toText (simplify (differentiate exF "x")) = "((3 * (2 * x)) + 2)" := by
  refine ⟨exF_deriv, ?_⟩
  rw [exF_deriv]
  rfl

/-- C2 counterexample: the value "hello" is neither an Expression nor a
numeric value, yet to_expression does not fail: it builds the node
Constant "hello", and the add overload happily builds an Add tree with
that operand. -/
theorem coercion_wraps_nonnumeric :
    to_expression (.raw (.txt "hello")) = .Constant (.txt "hello") ∧
    opAdd (.Variable "x") (.raw (.txt "hello")) =
      .Add (.Variable "x") (.Constant (.txt "hello")) :=
  ⟨rfl, rfl⟩

/-- C2 amended: the construction layer has no failure mode at all: for
every operand, Expression or raw, numeric or not, to_expression returns
Expression operands unchanged and wraps every other value in a Constant
node, and the operator overloads always build the corresponding tree. -/
theorem construction_never_fails (a : CExpr) (v : Operand) :
    opAdd a v = .Add a (to_expression v) ∧
    opSub a v = .Add a (.Multiply (.Constant (.num (-1))) (to_expression v)) ∧
    opMul a v = .Multiply a (to_expression v) ∧
    opPow a v = .Power a (to_expression v) ∧
    (∀ x : PyVal, to_expression (.raw x) = .Constant x) ∧
    (∀ e : CExpr, to_expression (.expr e) = e) :=
  ⟨rfl, rfl, rfl, rfl, fun _ => rfl, fun _ => rfl⟩

/-- C3: for every base, exponent and variable, the derivative of a
Power node is Multiply(Multiply(exponent', Power(base', Add(exponent',
Constant (-1)))), differentiate base') over simplified children, with
only this base-derivative term and no logarithmic term. -/
theorem power_rule_shape (base exponent : Expression) (var : String) :
    differentiate (.Power base exponent) var =
      .Multiply
        (.Multiply (simplify exponent)
          (.Power (simplify base) (.Add (simplify exponent) (.Constant (-1)))))
        (differentiate (simplify base) var) :=
  diff_Power base exponent var

/-- C5: simplify is idempotent, and in particular fixes the folded
constants Constant 5 and Add(Constant 2, Constant 3). -/
theorem simplify_idempotent :
    (∀ e : Expression, simplify (simplify e) = simplify e) ∧
    simplify (.Constant 5) = .Constant 5 ∧
    simplify (.Add (.Constant 2) (.Constant 3)) = .Constant 5 := by
  refine ⟨simplify_idem, rfl, ?_⟩
  rw [simplify_Add, simplify_Constant, simplify_Constant,
    addRules_const (by norm_num) (by norm_num)]
  norm_num

theorem powRulesE_zero (b : Expression) :
    powRulesE b (.Constant 0) = some (.Constant 1) := by
  simp [powRulesE]

theorem powRulesE_one (b : Expression) :
    powRulesE b (.Constant 1) = some b := by
  simp [powRulesE]

/-- C6 counterexample: at b = Power(Constant 0, Constant (-2)),
Power.simplify simplifies the base first, and the constant fold of
0 to the -2 raises ZeroDivisionError, so the program never returns
Constant 1 for Power(b, Constant 0): the partial engine yields none,
not some Constant 1. -/
theorem power_zero_exponent_crash :
    simplifyE (.Power (.Power (.Constant 0) (.Constant (-2))) (.Constant 0))
      = none ∧
    simplifyE (.Power (.Power (.Constant 0) (.Constant (-2))) (.Constant 0))
      ≠ some (.Constant 1) := by
  have h : simplifyE
      (.Power (.Power (.Constant 0) (.Constant (-2))) (.Constant 0)) = none := by
    simp [simplifyE, powRulesE, constPowE,
      show ((-2 : ℚ) = 0) = False by norm_num,
      show ((-2 : ℚ) = 1) = False by norm_num]
  refine ⟨h, ?_⟩
  rw [h]
  simp

/-- C6 amended: for every expression b whose own simplification
completes without raising, the zero-exponent rule fires before
constant folding: Power(b, Constant 0) simplifies to Constant 1,
including 0 to the 0, and Power(b, Constant 1) simplifies to the
simplified base. -/
theorem power_exponent_edge_cases (b b2 : Expression)
    (hb : simplifyE b = some b2) :
    simplifyE (.Power b (.Constant 0)) = some (.Constant 1) ∧
    simplifyE (.Power (.Constant 0) (.Constant 0)) = some (.Constant 1) ∧
    simplifyE (.Power b (.Constant 1)) = some b2 := by
  refine ⟨?_, ?_, ?_⟩
  · simp only [simplifyE]
    rw [hb]
    exact powRulesE_zero b2
  · simp [simplifyE, powRulesE]
  · simp only [simplifyE]
    rw [hb]
    exact powRulesE_one b2

/-- C6 witness: the variable x simplifies without raising, and the
three conclusions hold for it concretely. -/
theorem power_exponent_edge_cases_witness :
    simplifyE (.Variable "x") = some (.Variable "x") ∧
    simplifyE (.Power (.Variable "x") (.Constant 0)) = some (.Constant 1) ∧
    simplifyE (.Power (.Constant 0) (.Constant 0)) = some (.Constant 1) ∧
    simplifyE (.Power (.Variable "x") (.Constant 1)) = some (.Variable "x") := by
  have hb : simplifyE (.Variable "x") = some (.Variable "x") := rfl
  obtain ⟨h1, h2, h3⟩ :=
    power_exponent_edge_cases (.Variable "x") (.Variable "x") hb
  exact ⟨hb, h1, h2, h3⟩

/-- C7: identity and annihilator elimination at x: x + 0 simplifies to
x, x times 1 simplifies to x, x times 0 simplifies to Constant 0. -/
theorem identity_annihilator_elim :
    simplify (.Add (.Variable "x") (.Constant 0)) = .Variable "x" ∧
    simplify (.Multiply (.Variable "x") (.Constant 1)) = .Variable "x" ∧
    simplify (.Multiply (.Variable "x") (.Constant 0)) = .Constant 0 := by
  refine ⟨?_, ?_, ?_⟩
  · rw [simplify_Add, simplify_Variable, simplify_Constant, addRules_zero_right]
  · rw [simplify_Multiply, simplify_Variable, simplify_Constant,
      mulRules_one_right]
  · rw [simplify_Multiply, simplify_Variable, simplify_Constant,
      mulRules_zero_right]

/-- C8: both subtraction overloads build exactly
Add(to_expression a, Multiply(Constant (-1), to_expression b)); no
dedicated Subtract node exists in the closed variant set. -/
theorem sub_is_add_neg :
    (∀ (a : CExpr) (b : Operand), opSub a b =
      .Add (to_expression (.expr a))
        (.Multiply (.Constant (.num (-1))) (to_expression b))) ∧
    (∀ (a : Operand) (b : CExpr), opRSub a b =
      .Add (to_expression a)
        (.Multiply (.Constant (.num (-1))) (to_expression (.expr b)))) :=
  ⟨fun _ _ => rfl, fun _ _ => rfl⟩

/-- C9 counterexample: e = Power(Constant 0, Constant (-1)) contains no
Variable node at all, yet the program does not reduce its derivative to
Constant 0: simplifying the derivative folds Add(-1, -1) to -2 and the
constant fold of 0 to the -2 raises ZeroDivisionError, so the partial
pipeline yields none rather than some Constant 0. -/
theorem derivative_varFree_crash :
    usesVar "x" (.Power (.Constant 0) (.Constant (-1))) = false ∧
    (differentiateE (.Power (.Constant 0) (.Constant (-1))) "x").bind simplifyE
      = none := by
  refine ⟨rfl, ?_⟩
  simp [differentiateE, simplifyE, powRulesE, addRules, mulRules,
    show ((-1 : ℚ) = 0) = False by norm_num,
    show ((-1 : ℚ) = 1) = False by norm_num,
    show ((-1 : ℚ) + -1) = -2 by norm_num,
    show ((-2 : ℚ) = 0) = False by norm_num,
    show ((-2 : ℚ) = 1) = False by norm_num,
    show constPowE 0 (-2) = none from rfl]

/-- C9 amended: if no Variable node named v occurs in e, then whenever
differentiating and then simplifying completes without raising, the
returned value is the zero constant. -/
theorem derivative_varFree_zero (e : Expression) (v : String) (r : Expression)
    (h1 : usesVar v e = false)
    (h2 : (differentiateE e v).bind simplifyE = some r) :
    r = .Constant 0 := by
  obtain ⟨d, hd, hs⟩ := Option.bind_eq_some.mp h2
  rw [simplifyE_agrees hs, differentiateE_agrees hd]
  exact diff_varFree_aux (size e) e le_rfl h1

/-- C9 witness: y + y cubed uses no x, the partial pipeline completes
on it with value Constant 0, and the theorem applies. -/
theorem derivative_varFree_zero_witness :
    usesVar "x" (.Add (.Variable "y") (.Power (.Variable "y") (.Constant 3)))
      = false ∧
    (differentiateE
      (.Add (.Variable "y") (.Power (.Variable "y") (.Constant 3))) "x").bind
        simplifyE = some (.Constant 0) ∧
    (.Constant 0 : Expression) = .Constant 0 := by
  have h1 : usesVar "x"
      (.Add (.Variable "y") (.Power (.Variable "y") (.Constant 3))) = false :=
    rfl
  have hd : differentiateE
      (.Add (.Variable "y") (.Power (.Variable "y") (.Constant 3))) "x"
      = some (.Add (.Constant 0)
          (.Multiply (.Multiply (.Constant 3)
            (.Power (.Variable "y") (.Add (.Constant 3) (.Constant (-1)))))
          (.Constant 0))) := by
    simp [differentiateE, simplifyE, powRulesE, addRules, mulRules,
      show ((3 : ℚ) = 0) = False by norm_num,
      show ((3 : ℚ) = 1) = False by norm_num]
  have h2 : (differentiateE
      (.Add (.Variable "y") (.Power (.Variable "y") (.Constant 3))) "x").bind
        simplifyE = some (.Constant 0) := by
    rw [hd, Option.some_bind]
    simp [simplifyE, powRulesE, addRules, mulRules,
      show ((3 : ℚ) = 0) = False by norm_num,
      show ((3 : ℚ) = 1) = False by norm_num,
      show ((3 : ℚ) + -1) = 2 by norm_num]
  exact ⟨h1, h2, derivative_varFree_zero
    (.Add (.Variable "y") (.Power (.Variable "y") (.Constant 3))) "x"
    (.Constant 0) h1 h2⟩

/-- C10: the output of simplify is always in reduced form: no Add node
with a Constant 0 child, no Multiply node with a Constant 0 or
Constant 1 child, no Power node with exponent Constant 0 or Constant 1,
and no binary node both of whose children are constants. -/
theorem simplify_reduced_form (e : Expression) :
    reducedForm (simplify e) = true :=
  reduced_simplify e

end Symdiff
